import Mathlib

/-!
# Game of Life on a terminal grid (`main.go`)

A shallow embedding of the grid functions of `main.go` (`get`, `isAlive`,
`revive`, `kill`, `update`, `draw`), of the allocation and seeding loop of
`main` and of its tick loop, and theorems about them.

Conventions of the embedding:

* a `[][]termbox.Cell` is a `List (List Cell)`; the rows of a buffer and the
  two buffers handed to `update` and `draw` are separate values (no row is
  shared), which is how `main` allocates them;
* Go's `int` is modelled by `Int`/`Nat`: every arithmetic operation of the
  embedded functions stays within `(-len, len]` of a slice length or within
  one of a loop index, so no 64-bit wrap-around can occur;
* a run-time panic (index out of range, integer divide by zero) is an
  `Except.error`; a normal return is `Except.ok`;
* the pseudo-random generator is the sequence of values `rand.Intn(100)`
  returns, and the seeding loop takes the integer `int(*density*100.0)` as
  given (for the default density 0.75 it is 75: both numbers are exact in
  binary floating point).
-/

namespace Gol

/-! ## Data model -/

/-- Modelled from the spec: `termbox.ColorBlack`, a constant of the terminal
library, which is not part of this repository. The spec only says that a
foreground/background colour pair encodes alive or dead; the value is the one
the library gives (`ColorDefault = 0, ColorBlack = 1, …, ColorWhite = 8`), and
the theorems below use no more than `ColorBlack ≠ ColorWhite`. -/
def ColorBlack : Nat := 1

/-- Modelled from the spec: `termbox.ColorWhite`, a constant of the terminal
library, which is not part of this repository; see `ColorBlack`. -/
def ColorWhite : Nat := 8

/-- The record `termbox.Cell`: a glyph and a foreground/background colour. -/
structure Cell where
  Ch : Nat
  Fg : Nat
  Bg : Nat
deriving DecidableEq

/-- A buffer `[][]termbox.Cell`: a slice of rows. -/
abbrev Grid := List (List Cell)

/-- The run-time panics the embedded code can raise. -/
inductive Panic where
  | indexOutOfRange
  | divideByZero
deriving DecidableEq

/-- The two buffers a tick works on: `last` (previous) and `current` (next). -/
structure Boards where
  last : Grid
  current : Grid
deriving DecidableEq

/-- One call `termbox.SetCell(x, y, ch, fg, bg)`. -/
structure SetCell where
  x : Nat
  y : Nat
  ch : Nat
  fg : Nat
  bg : Nat
deriving DecidableEq

/-! ## Go primitives -/

/-- Slice indexing `xs[i]`, panicking when `i` is out of range. -/
def index {α : Type} (xs : List α) (i : Int) : Except Panic α :=
  if i < 0 then .error .indexOutOfRange
  else
    match xs[i.toNat]? with
    | some a => .ok a
    | none => .error .indexOutOfRange

/-- Slice assignment `xs[i] = v`, panicking when `i` is out of range. -/
def assign {α : Type} (xs : List α) (i : Int) (v : α) : Except Panic (List α) :=
  if i < 0 then .error .indexOutOfRange
  else if i.toNat < xs.length then .ok (xs.set i.toNat v)
  else .error .indexOutOfRange

/-- Go's `a % b` on integers: truncated remainder, panicking on `b = 0`. -/
def rem (a b : Int) : Except Panic Int :=
  if b = 0 then .error .divideByZero else .ok (a.tmod b)

/-- The loop `for i := range xs` over a slice of length `n`, threading the
state `s` through the body and stopping at the first panic. -/
def forRange {σ : Type} (n : Nat) (body : Nat → σ → Except Panic σ) (s : σ) :
    Except Panic σ :=
  (List.range n).foldlM (fun s i => body i s) s

/-! ## The functions of `main.go` -/

/-- The function `isAlive`: a cell is alive when it is white on black. -/
def isAlive (c : Cell) : Bool :=
  c.Fg == ColorWhite && c.Bg == ColorBlack

/-- The function `revive`: sets the colours of the cell to white on black. -/
def revive (c : Cell) : Cell :=
  { c with Bg := ColorBlack, Fg := ColorWhite }

/-- The function `kill`: sets the colours of the cell to black on white. -/
def kill (c : Cell) : Cell :=
  { c with Bg := ColorWhite, Fg := ColorBlack }

/-- The function `get`: wrap-around lookup in `b`; the remainders are Go's
(truncated), made nonnegative by adding the length. -/
def get (x y : Int) (b : Grid) : Except Panic (Cell × Bool) := do
  let rx ← rem x b.length
  let ry ← rem y (← index b 0).length
  let rx := if rx < 0 then (b.length : Int) + rx else rx
  let ry ← if ry < 0 then (do let row0 ← index b 0; pure ((row0.length : Int) + ry))
    else pure ry
  let row ← index b rx
  let c ← index row ry
  return (c, true)

/-- The closure `acc` of `update`, as a function of the counter. -/
def acc (aliveNeigh : Int) (r : Cell × Bool) : Int :=
  if r.2 && isAlive r.1 then aliveNeigh + 1 else aliveNeigh

/-- The body of the inner loop of `update` at row `x`, column `y`. -/
def updateCell (x y : Nat) (s : Boards) : Except Panic Boards := do
  let xi : Int := x
  let yi : Int := y
  let aliveNeigh : Int := 0
  let aliveNeigh := acc aliveNeigh (← get (xi - 1) (yi - 1) s.last)
  let aliveNeigh := acc aliveNeigh (← get (xi - 1) yi s.last)
  let aliveNeigh := acc aliveNeigh (← get (xi - 1) (yi + 1) s.last)
  let aliveNeigh := acc aliveNeigh (← get xi (yi - 1) s.last)
  let aliveNeigh := acc aliveNeigh (← get xi (yi + 1) s.last)
  let aliveNeigh := acc aliveNeigh (← get (xi + 1) (yi - 1) s.last)
  let aliveNeigh := acc aliveNeigh (← get (xi + 1) yi s.last)
  let aliveNeigh := acc aliveNeigh (← get (xi + 1) (yi + 1) s.last)
  let old ← (do let r ← index s.last xi; index r yi)
  let future ← (do let r ← index s.current xi; index r yi)
  let future :=
    if isAlive old then
      if aliveNeigh ≠ 2 ∧ aliveNeigh ≠ 3 then kill future else future
    else
      if aliveNeigh = 3 then revive future else future
  let row ← index s.current xi
  let row ← assign row yi future
  let cur ← assign s.current xi row
  return { s with current := cur }

/-- The function `update(last, current)`: both loops range over `last`. -/
def update (s : Boards) : Except Panic Boards :=
  forRange s.last.length (fun x s => do
    let row ← index s.last x
    forRange row.length (fun y s => updateCell x y s) s) s

/-- The body of the inner loop of `draw` at row `x`, column `y`; the calls to
`termbox.SetCell` are recorded in order. -/
def drawCell (x y : Nat) (s : Boards × List SetCell) :
    Except Panic (Boards × List SetCell) := do
  let xi : Int := x
  let yi : Int := y
  let future ← (do let r ← index s.1.current xi; index r yi)
  let screen := s.2 ++ [⟨x, y, future.Ch, future.Fg, future.Bg⟩]
  let row ← index s.1.last xi
  let row ← assign row yi future
  let lst ← assign s.1.last xi row
  return ({ s.1 with last := lst }, screen)

/-- The function `draw(last, current)`: both loops range over `last`. -/
def draw (s : Boards × List SetCell) : Except Panic (Boards × List SetCell) :=
  forRange s.1.last.length (fun x s => do
    let row ← index s.1.last x
    forRange row.length (fun y s => drawCell x y s) s) s

/-- One iteration of the main loop of `main`: `update(lastBoard, board)` and
then `draw(lastBoard, board)`. -/
def tick (s : Boards × List SetCell) : Except Panic (Boards × List SetCell) := do
  let b ← update s.1
  draw (b, s.2)

/-- The zero value of `termbox.Cell`, which `make` fills fresh rows with. -/
def zeroCell : Cell := ⟨0, 0, 0⟩

/-- The buffer `main` allocates for a display of size `h × w`: `h` rows made
by `make([]termbox.Cell, w)`. -/
def zeroGrid (h w : Nat) : Grid :=
  List.replicate h (List.replicate w zeroCell)

/-- The cell the seeding loop of `main` builds from `c` for the draw `r` of
`rand.Intn(100)`, where `t` stands for `int(*density*100.0)`: the glyph is a
blank, and the colours are white on black when `r > t` and black on white
otherwise. -/
def seedCell (t r : Int) (c : Cell) : Cell :=
  let c := { c with Ch := 32 }
  if r > t then { c with Fg := ColorWhite, Bg := ColorBlack }
  else { c with Fg := ColorBlack, Bg := ColorWhite }

/-- The body of the seeding loop of `main` at row `i`, column `j`. The
generator is the sequence `draws` of the values `rand.Intn(100)` returns, and
the state counts how many of them were taken. -/
def seedStep (t : Int) (draws : Nat → Int) (i j : Nat) (s : Boards × Nat) :
    Except Panic (Boards × Nat) := do
  let ii : Int := i
  let ji : Int := j
  let c ← (do let r ← index s.1.last ii; index r ji)
  let r := draws s.2
  let c := seedCell t r c
  let row ← index s.1.current ii
  let row ← assign row ji c
  let cur ← assign s.1.current ii row
  return ({ s.1 with current := cur }, s.2 + 1)

/-- The allocation of `lastBoard` and `board` and the seeding loop of `main`,
for a display of size `h × w`; the result is the two buffers and the number of
draws taken. -/
def seed (h w : Nat) (t : Int) (draws : Nat → Int) : Except Panic (Boards × Nat) :=
  forRange h (fun i s => forRange w (fun j s => seedStep t draws i j s) s)
    (⟨zeroGrid h w, zeroGrid h w⟩, 0)

/-- The main loop of `main` run for `n` ticks. -/
def ticks : Nat → Boards × List SetCell → Except Panic (Boards × List SetCell)
  | 0, s => .ok s
  | n + 1, s => do
    let s' ← tick s
    ticks n s'

/-! ## Vocabulary of the statements -/

/-- A rectangular buffer of `H` rows of `W` cells each. -/
def Rect (H W : Nat) (g : Grid) : Prop :=
  g.length = H ∧ ∀ row ∈ g, row.length = W

instance (H W : Nat) (g : Grid) : Decidable (Rect H W g) :=
  inferInstanceAs (Decidable (g.length = H ∧ ∀ row ∈ g, row.length = W))

/-- The cell stored at row `x`, column `y` of a buffer, if there is one. -/
def cellAt (g : Grid) (x y : Nat) : Option Cell :=
  (g[x]?).bind (fun row => row[y]?)

/-- Whether the cell stored at row `x`, column `y` is alive. -/
def aliveAt (g : Grid) (x y : Nat) : Bool :=
  match cellAt g x y with
  | some c => isAlive c
  | none => false

/-- The eight neighbour offsets, `(-1,-1)` through `(+1,+1)` without `(0,0)`. -/
def offsets : List (Int × Int) :=
  [(-1, -1), (-1, 0), (-1, 1), (0, -1), (0, 1), (1, -1), (1, 0), (1, 1)]

/-- The number of alive cells among the eight toroidal neighbours of `(x, y)`
on the `H × W` torus: one is counted for each of the eight offsets whose
wrapped position (floored modulo) holds an alive cell. -/
def aliveNeighbours (H W : Nat) (g : Grid) (x y : Nat) : Nat :=
  offsets.countP (fun d =>
    aliveAt g (Int.fmod (x + d.1) H).toNat (Int.fmod (y + d.2) W).toNat)

/-- The Game of Life rule as `update` applies it: `old` is the cell of the
previous buffer, `n` its neighbour count and `future` the cell of the next
buffer that is overwritten. -/
def rule (old : Cell) (n : Int) (future : Cell) : Cell :=
  if isAlive old then
    if n ≠ 2 ∧ n ≠ 3 then kill future else future
  else
    if n = 3 then revive future else future

/-- What `update` leaves at row `x`, column `y` of the next buffer, when that
position held `future` before. -/
def nextCell (H W : Nat) (last : Grid) (x y : Nat) (future : Cell) : Cell :=
  match cellAt last x y with
  | some old => rule old (aliveNeighbours H W last x y) future
  | none => future

/-- The loop invariant of `update` when row `x` has been processed up to
column `j`: the previous buffer is untouched, the next buffer keeps its shape,
and exactly the positions already visited hold their new cell. -/
def UInv (H W : Nat) (last cur : Grid) (x j : Nat) (s : Boards) : Prop :=
  s.last = last ∧ Rect H W s.current ∧
    ∀ x' y', cellAt s.current x' y' =
      if x' < x ∨ (x' = x ∧ y' < j) then (cellAt cur x' y').map (nextCell H W last x' y')
      else cellAt cur x' y'

/-- The Game of Life rule in the words of the spec: a cell is alive in the next
generation iff it is alive with 2 or 3 alive neighbours, or dead with exactly
3 alive neighbours. -/
def lifeAlive (alive : Bool) (n : Nat) : Bool :=
  (alive && (n == 2 || n == 3)) || (!alive && n == 3)

/-- The cell of the next generation: the glyph is unchanged and the colours
are the alive pair or the dead pair. -/
def lifeCell (c : Cell) (n : Nat) : Cell :=
  if lifeAlive (isAlive c) n then { c with Fg := ColorWhite, Bg := ColorBlack }
  else { c with Fg := ColorBlack, Bg := ColorWhite }

/-- One standard Game of Life generation on the `H × W` torus, written from
the spec and not from `update`. -/
def Life (H W : Nat) (g : Grid) : Grid :=
  g.mapIdx (fun x row => row.mapIdx (fun y c => lifeCell c (aliveNeighbours H W g x y)))

/-- A cell that carries the alive pair or the dead pair of colours, as every
seeded cell does. -/
def Canon (c : Cell) : Prop :=
  (c.Fg = ColorWhite ∧ c.Bg = ColorBlack) ∨ (c.Fg = ColorBlack ∧ c.Bg = ColorWhite)

/-- A buffer all of whose cells carry the alive pair or the dead pair. -/
def CanonGrid (g : Grid) : Prop :=
  ∀ x y c, cellAt g x y = some c → Canon c

/-- The translate of a buffer by `(a, b)`: the buffer of the same shape whose
cell at `(x, y)` is what `get (x - a) (y - b)` returns on `g` (a position where
`get` panics keeps its cell; there is none on a non-empty rectangle). -/
def shift (a b : Int) (g : Grid) : Grid :=
  g.mapIdx (fun x row => row.mapIdx (fun y c =>
    match get ((x : Int) - a) ((y : Int) - b) g with
    | .ok r => r.1
    | .error _ => c))

/-- The number of offsets `(dx, dy)` among the eight for which
`get (x + dx) (y + dy)` returns an alive cell of `g`: the sequence of eight
`acc(get(…))` calls of `update`, as a count. -/
def offsetCount (g : Grid) (x y : Nat) : Nat :=
  offsets.countP (fun d =>
    match get ((x : Int) + d.1) ((y : Int) + d.2) g with
    | .ok r => r.2 && isAlive r.1
    | .error _ => false)

/-- The loop invariant of `draw` when row `x` has been processed up to column
`j`: the next buffer is untouched, the previous buffer keeps its shape, and
exactly the positions already visited hold the cell of the next buffer. -/
def DInv (H W : Nat) (last cur : Grid) (x j : Nat) (s : Boards × List SetCell) : Prop :=
  s.1.current = cur ∧ Rect H W s.1.last ∧
    ∀ x' y', cellAt s.1.last x' y' =
      if x' < x ∨ (x' = x ∧ y' < j) then cellAt cur x' y' else cellAt last x' y'

/-- The loop invariant of the seeding loop when row `i` has been processed up
to column `j`: `lastBoard` is still all zero cells, `i * w + j` draws were
taken, and exactly the positions already visited hold their seeded cell. -/
def SInv (h w : Nat) (t : Int) (draws : Nat → Int) (i j : Nat) (s : Boards × Nat) : Prop :=
  s.1.last = zeroGrid h w ∧ s.2 = i * w + j ∧ Rect h w s.1.current ∧
    ∀ x' y', cellAt s.1.current x' y' =
      if x' < i ∨ (x' = i ∧ y' < j) then
        (cellAt (zeroGrid h w) x' y').map (seedCell t (draws (x' * w + y')))
      else cellAt (zeroGrid h w) x' y'

/-- Whether the one cell of a 1×1 display is seeded alive when
`int(*density*100.0)` is `t` and the draw of `rand.Intn(100)` is `r`. -/
def seededAlive (t : Int) (r : Nat) : Bool :=
  match seed 1 1 t (fun _ => (r : Int)) with
  | .ok s => aliveAt s.1.current 0 0
  | .error _ => false

/-- How many of the 100 possible draws seed the cell alive. -/
def aliveDraws (t : Int) : Nat :=
  (List.range 100).countP (seededAlive t)

/-! ## Concrete cells and buffers -/

/-- A sample sequence of draws in `[0, 100)`. -/
def drawsA (k : Nat) : Int := ((k * 37 % 100 : Nat) : Int)

/-- A sequence of draws that agrees with `drawsA` on the first six only. -/
def drawsB (k : Nat) : Int := if k < 6 then drawsA k else 0


/-- An alive cell as `main` seeds it: a blank glyph, white on black. -/
def aliveCell : Cell := ⟨32, ColorWhite, ColorBlack⟩

/-- A dead cell as `main` seeds it: a blank glyph, black on white. -/
def deadCell : Cell := ⟨32, ColorBlack, ColorWhite⟩

/-- The 3×3 blinker: the middle row alive. -/
def blinkerRow3 : Grid :=
  [[deadCell, deadCell, deadCell],
   [aliveCell, aliveCell, aliveCell],
   [deadCell, deadCell, deadCell]]

/-- The 3×3 grid with the middle column alive. -/
def blinkerCol3 : Grid :=
  [[deadCell, aliveCell, deadCell],
   [deadCell, aliveCell, deadCell],
   [deadCell, aliveCell, deadCell]]

/-- The 3×3 grid with every cell alive. -/
def full3 : Grid :=
  [[aliveCell, aliveCell, aliveCell],
   [aliveCell, aliveCell, aliveCell],
   [aliveCell, aliveCell, aliveCell]]

/-- The 3×3 grid with every cell dead. -/
def empty3 : Grid :=
  [[deadCell, deadCell, deadCell],
   [deadCell, deadCell, deadCell],
   [deadCell, deadCell, deadCell]]

/-- The 3×3 blinker drawn with the glyph `#` instead of a blank. -/
def blinkerRow3Hash : Grid :=
  blinkerRow3.map (List.map (fun c => { c with Ch := 35 }))

/-- The boards of a successful run, without the recorded screen calls. -/
def boardsOf (r : Except Panic (Boards × List SetCell)) : Option Boards :=
  match r with
  | .ok s => some s.1
  | .error _ => none

/-! ## Basic facts -/

theorem rect_row {H W : Nat} {g : Grid} (hg : Rect H W g) {x : Nat} (hx : x < H) :
    ∃ row, g[x]? = some row ∧ row.length = W := by
  obtain ⟨hl, hr⟩ := hg
  have hx' : x < g.length := by omega
  exact ⟨g[x], List.getElem?_eq_getElem hx', hr _ (List.getElem_mem _)⟩

theorem rect_cell {H W : Nat} {g : Grid} (hg : Rect H W g) {x y : Nat}
    (hx : x < H) (hy : y < W) :
    ∃ row c, g[x]? = some row ∧ row.length = W ∧ row[y]? = some c ∧
      cellAt g x y = some c := by
  obtain ⟨row, hrow, hlen⟩ := rect_row hg hx
  have hy' : y < row.length := by omega
  refine ⟨row, row[y], hrow, hlen, List.getElem?_eq_getElem hy', ?_⟩
  simp [cellAt, hrow, List.getElem?_eq_getElem hy']

theorem index_ok {α : Type} {xs : List α} {i : Nat} {a : α} (h : xs[i]? = some a) :
    index xs (i : Int) = .ok a := by
  have : ¬ ((i : Int) < 0) := by omega
  simp [index, this, h]

theorem assign_ok {α : Type} {xs : List α} {i : Nat} (h : i < xs.length) (v : α) :
    assign xs (i : Int) v = .ok (xs.set i v) := by
  have : ¬ ((i : Int) < 0) := by omega
  simp [assign, this, h]

/-- The sign fix-up of `get` turns Go's truncated remainder into the
nonnegative remainder. -/
theorem wrap_eq_emod (x : Int) {n : Int} (hn : 0 < n) :
    (if x.tmod n < 0 then n + x.tmod n else x.tmod n) = x % n := by
  have h1 : x.tmod n + n * x.tdiv n = x := Int.tmod_add_tdiv x n
  have h2 : x.tmod n < n := Int.tmod_lt_of_pos x hn
  have h3 : -n < x.tmod n := by
    have h := Int.tmod_lt_of_pos (-x) hn
    rw [Int.tmod_def, Int.neg_tdiv, Int.mul_neg] at h
    omega
  have h4 : x % n = (x.tmod n) % n := by
    conv_lhs => rw [← h1]
    exact Int.add_mul_emod_self_left _ _ _
  split
  · rename_i hneg
    rw [h4, ← Int.add_emod_self_left, Int.emod_eq_of_lt (by omega) (by omega)]
  · rename_i hpos
    rw [h4, Int.emod_eq_of_lt (by omega) h2]

theorem fmod_bounds (x : Int) {n : Nat} (hn : 0 < n) :
    0 ≤ Int.fmod x n ∧ Int.fmod x n < n ∧ (Int.fmod x n).toNat < n := by
  have hn' : (0 : Int) < n := by exact_mod_cast hn
  rw [Int.fmod_eq_emod x (by omega)]
  have h1 := Int.emod_nonneg x (by omega : (n : Int) ≠ 0)
  have h2 := Int.emod_lt_of_pos x hn'
  omega

/-- On a rectangular buffer with at least one row and one column, `get`
returns the cell at the floored-modulo position, with flag `true`. -/
theorem get_spec {H W : Nat} {b : Grid} (hb : Rect H W b) (hH : 0 < H) (hW : 0 < W)
    (x y : Int) :
    ∃ row c, b[(Int.fmod x H).toNat]? = some row ∧
      row[(Int.fmod y W).toNat]? = some c ∧ get x y b = .ok (c, true) := by
  obtain ⟨bx0, bx1, bx2⟩ := fmod_bounds x hH
  obtain ⟨by0, by1, by2⟩ := fmod_bounds y hW
  obtain ⟨row, c, hrow, hlen, hc, -⟩ := rect_cell hb bx2 by2
  obtain ⟨row0, hrow0, hlen0⟩ := rect_row hb hH
  have hH' : (0 : Int) < (b.length : Int) := by rw [hb.1]; exact_mod_cast hH
  have hW' : (0 : Int) < (row0.length : Int) := by rw [hlen0]; exact_mod_cast hW
  have i0 : index b 0 = .ok row0 := index_ok (i := 0) hrow0
  have ex : (if x.tmod b.length < 0 then (b.length : Int) + x.tmod b.length
      else x.tmod b.length) = ((Int.fmod x H).toNat : Int) := by
    rw [wrap_eq_emod x hH', hb.1, ← Int.fmod_eq_emod x (by omega)]; omega
  have ey : (if y.tmod row0.length < 0 then (row0.length : Int) + y.tmod row0.length
      else y.tmod row0.length) = ((Int.fmod y W).toNat : Int) := by
    rw [wrap_eq_emod y hW', hlen0, ← Int.fmod_eq_emod y (by omega)]; omega
  refine ⟨row, c, hrow, hc, ?_⟩
  have hne1 : (b.length : Int) ≠ 0 := by omega
  have hne2 : (row0.length : Int) ≠ 0 := by omega
  simp only [get, rem, hne1, hne2, i0, if_false, bind, Except.bind, pure, Except.pure]
  rw [ex]
  by_cases hneg : y.tmod row0.length < 0
  · rw [if_pos hneg] at ey
    rw [if_pos hneg]
    simp only [ey, index_ok hrow, index_ok hc]
  · rw [if_neg hneg] at ey
    rw [if_neg hneg]
    simp only [ey, index_ok hrow, index_ok hc]

theorem cellAt_none_of_row {H W : Nat} {g : Grid} (hg : Rect H W g) {x : Nat}
    (hx : H ≤ x) (y : Nat) : cellAt g x y = none := by
  have : g[x]? = none := List.getElem?_eq_none (by rw [hg.1]; exact hx)
  simp [cellAt, this]

theorem cellAt_none_of_col {H W : Nat} {g : Grid} (hg : Rect H W g) (x : Nat)
    {y : Nat} (hy : W ≤ y) : cellAt g x y = none := by
  by_cases hx : x < H
  · obtain ⟨row, hrow, hlen⟩ := rect_row hg hx
    have : row[y]? = none := List.getElem?_eq_none (by rw [hlen]; exact hy)
    simp [cellAt, hrow, this]
  · exact cellAt_none_of_row hg (by omega) y

theorem cellAt_set {g : Grid} {x y : Nat} {row : List Cell} (hrow : g[x]? = some row)
    (hy : y < row.length) (v : Cell) (x' y' : Nat) :
    cellAt (g.set x (row.set y v)) x' y' =
      if x' = x ∧ y' = y then some v else cellAt g x' y' := by
  have hx : x < g.length := by
    obtain ⟨h, -⟩ := List.getElem?_eq_some.mp hrow
    exact h
  by_cases h1 : x' = x
  · subst h1
    by_cases h2 : y' = y
    · subst h2
      simp [cellAt, List.getElem?_set, hx, hy]
    · have h2' : y ≠ y' := fun h => h2 h.symm
      simp [cellAt, List.getElem?_set, hx, hrow, h2, h2']
  · have h1' : x ≠ x' := fun h => h1 h.symm
    simp [cellAt, List.getElem?_set_ne h1', h1]

theorem rect_set {H W : Nat} {g : Grid} (hg : Rect H W g) (x : Nat) {row : List Cell}
    (hrow : row.length = W) : Rect H W (g.set x row) := by
  refine ⟨by rw [List.length_set]; exact hg.1, ?_⟩
  intro r hr
  rcases List.mem_or_eq_of_mem_set hr with h | h
  · exact hg.2 r h
  · rw [h]; exact hrow

/-! ## The loops -/

theorem forRange_succ {σ : Type} (n : Nat) (body : Nat → σ → Except Panic σ) (s : σ) :
    forRange (n + 1) body s = (forRange n body s >>= body n) := by
  simp [forRange, List.range_succ, List.foldlM_append]

/-- Invariant rule for `for i := range …`: an invariant that holds at entry
and is carried by each iteration (which must not panic) holds at exit, and the
loop does not panic. -/
theorem forRange_inv {σ : Type} (Inv : Nat → σ → Prop) (n : Nat)
    (body : Nat → σ → Except Panic σ) (s : σ) (h0 : Inv 0 s)
    (hstep : ∀ i t, i < n → Inv i t → ∃ t', body i t = .ok t' ∧ Inv (i + 1) t') :
    ∃ t, forRange n body s = .ok t ∧ Inv n t := by
  induction n with
  | zero => exact ⟨s, rfl, h0⟩
  | succ k ih =>
    obtain ⟨t, ht, hinv⟩ := ih (fun i t hi => hstep i t (by omega))
    obtain ⟨t', ht', hinv'⟩ := hstep k t (by omega) hinv
    refine ⟨t', ?_, hinv'⟩
    rw [forRange_succ, ht]
    exact ht'

/-! ## `update`, one cell -/

theorem acc_true (n : Int) (c : Cell) :
    acc n (c, true) = n + (if isAlive c then 1 else 0) := by
  cases h : isAlive c <;> simp [acc, h]

theorem get_alive {H W : Nat} {b : Grid} (hb : Rect H W b) (hH : 0 < H) (hW : 0 < W)
    (x y : Int) :
    ∃ c, get x y b = .ok (c, true) ∧
      isAlive c = aliveAt b (Int.fmod x H).toNat (Int.fmod y W).toNat := by
  obtain ⟨row, c, hrow, hc, hget⟩ := get_spec hb hH hW x y
  refine ⟨c, hget, ?_⟩
  simp [aliveAt, cellAt, hrow, hc]

/-- One iteration of the inner loop of `update` on rectangular buffers of equal
size: it does not panic, leaves `last` alone and overwrites position `(x, y)`
of `current` by the rule applied to the per-offset neighbour count. -/
theorem updateCell_spec {H W : Nat} {last cur : Grid} (hl : Rect H W last)
    (hc : Rect H W cur) {x y : Nat} (hx : x < H) (hy : y < W) :
    ∃ old future row, cellAt last x y = some old ∧ cur[x]? = some row ∧
      row.length = W ∧ row[y]? = some future ∧
      updateCell x y ⟨last, cur⟩ =
        .ok ⟨last, cur.set x (row.set y (rule old (aliveNeighbours H W last x y) future))⟩ := by
  have hH : 0 < H := by omega
  have hW : 0 < W := by omega
  obtain ⟨c1, g1, a1⟩ := get_alive hl hH hW ((x : Int) - 1) ((y : Int) - 1)
  obtain ⟨c2, g2, a2⟩ := get_alive hl hH hW ((x : Int) - 1) (y : Int)
  obtain ⟨c3, g3, a3⟩ := get_alive hl hH hW ((x : Int) - 1) ((y : Int) + 1)
  obtain ⟨c4, g4, a4⟩ := get_alive hl hH hW (x : Int) ((y : Int) - 1)
  obtain ⟨c5, g5, a5⟩ := get_alive hl hH hW (x : Int) ((y : Int) + 1)
  obtain ⟨c6, g6, a6⟩ := get_alive hl hH hW ((x : Int) + 1) ((y : Int) - 1)
  obtain ⟨c7, g7, a7⟩ := get_alive hl hH hW ((x : Int) + 1) (y : Int)
  obtain ⟨c8, g8, a8⟩ := get_alive hl hH hW ((x : Int) + 1) ((y : Int) + 1)
  obtain ⟨rowL, old, hrowL, -, hold, hcellL⟩ := rect_cell hl hx hy
  obtain ⟨row, future, hrow, hlen, hfut, -⟩ := rect_cell hc hx hy
  have hcount : acc (acc (acc (acc (acc (acc (acc (acc 0 (c1, true)) (c2, true)) (c3, true))
      (c4, true)) (c5, true)) (c6, true)) (c7, true)) (c8, true)
      = (aliveNeighbours H W last x y : Int) := by
    simp only [acc_true, aliveNeighbours, offsets, List.countP_cons, List.countP_nil,
      Int.add_zero, ← Int.sub_eq_add_neg, ← a1, ← a2, ← a3, ← a4, ← a5, ← a6, ← a7, ← a8]
    push_cast
    ring
  refine ⟨old, future, row, hcellL, hrow, hlen, hfut, ?_⟩
  have hy' : y < row.length := by omega
  simp only [updateCell, g1, g2, g3, g4, g5, g6, g7, g8, bind, Except.bind, pure,
    Except.pure, index_ok hrowL, index_ok hold, index_ok hrow, index_ok hfut,
    assign_ok hy', hcount]
  have hx' : x < cur.length := by rw [hc.1]; exact hx
  rw [assign_ok hx']
  rfl

/-! ## `update`, the whole buffer -/

theorem uinv_step {H W : Nat} {last cur : Grid} (hl : Rect H W last) {x j : Nat}
    (hx : x < H) (hj : j < W) {s : Boards} (hs : UInv H W last cur x j s) :
    ∃ s', updateCell x j s = .ok s' ∧ UInv H W last cur x (j + 1) s' := by
  obtain ⟨sl, sc⟩ := s
  obtain ⟨h1, h2, h3⟩ := hs
  simp only at h1 h2 h3
  subst h1
  obtain ⟨old, future, row, hold, hrow, hlen, hfut, hrun⟩ := updateCell_spec hl h2 hx hj
  refine ⟨_, hrun, rfl, rect_set h2 x (by rw [List.length_set]; exact hlen), ?_⟩
  intro x' y'
  have hcur : cellAt cur x j = some future := by
    have := h3 x j
    rw [if_neg (by omega)] at this
    rw [← this]
    simp [cellAt, hrow, hfut]
  simp only
  rw [cellAt_set hrow (by omega)]
  by_cases hxy : x' = x ∧ y' = j
  · obtain ⟨rfl, rfl⟩ := hxy
    rw [if_pos ⟨rfl, rfl⟩, if_pos (by omega), hcur]
    simp [nextCell, hold]
  · rw [if_neg hxy, h3 x' y']
    by_cases hd : x' < x ∨ (x' = x ∧ y' < j)
    · rw [if_pos hd, if_pos (by omega)]
    · rw [if_neg hd, if_neg (by omega)]

theorem uinv_next_row {H W : Nat} {last cur : Grid} (hc : Rect H W cur) {x : Nat}
    {s : Boards} (hs : UInv H W last cur x W s) : UInv H W last cur (x + 1) 0 s := by
  obtain ⟨h1, h2, h3⟩ := hs
  refine ⟨h1, h2, ?_⟩
  intro x' y'
  rw [h3 x' y']
  by_cases hd : x' < x ∨ (x' = x ∧ y' < W)
  · rw [if_pos hd, if_pos (by omega)]
  · rw [if_neg hd]
    by_cases hx : x' = x
    · have hy : W ≤ y' := by omega
      rw [cellAt_none_of_col hc x' hy]
      simp
    · rw [if_neg (by omega)]

/-- On rectangular buffers of equal size (empty ones included) `update` does
not panic, returns `last` as it was and leaves in `current` a buffer of the
same shape whose cell at each position is `nextCell` of the cell it held. -/
theorem update_spec {H W : Nat} {last cur : Grid} (hl : Rect H W last)
    (hc : Rect H W cur) :
    ∃ cur', update ⟨last, cur⟩ = .ok ⟨last, cur'⟩ ∧ Rect H W cur' ∧
      ∀ x y, cellAt cur' x y = (cellAt cur x y).map (nextCell H W last x y) := by
  have hloop := forRange_inv (fun x s => UInv H W last cur x 0 s) H
    (fun x s => do
      let row ← index s.last x
      forRange row.length (fun y s => updateCell x y s) s) ⟨last, cur⟩
    ⟨rfl, hc, fun x' y' => by simp⟩
    (by
      intro x s hx hs
      obtain ⟨rowL, hrowL, hlenL⟩ := rect_row hl hx
      have hin := forRange_inv (fun j s => UInv H W last cur x j s) W
        (fun y s => updateCell x y s) s hs (fun j t hj ht => uinv_step hl hx hj ht)
      obtain ⟨t, ht, hinv⟩ := hin
      refine ⟨t, ?_, uinv_next_row hc hinv⟩
      simp only [hs.1, index_ok hrowL, bind, Except.bind, hlenL]
      exact ht)
  obtain ⟨⟨tl, tc⟩, ht, h1, h2, h3⟩ := hloop
  simp only at h1 h2 h3
  subst h1
  refine ⟨tc, ?_, h2, ?_⟩
  · simp only [update]
    rw [hl.1]
    exact ht
  · intro x y
    rw [h3 x y]
    by_cases hx : x < H
    · rw [if_pos (Or.inl hx)]
    · rw [if_neg (by omega), cellAt_none_of_row hc (by omega) y]
      rfl

/-! ## Consequences for aliveness -/

theorem isAlive_kill (c : Cell) : isAlive (kill c) = false := by
  simp [isAlive, kill, ColorWhite, ColorBlack]

theorem isAlive_revive (c : Cell) : isAlive (revive c) = true := by
  simp [isAlive, revive, ColorWhite, ColorBlack]

theorem isAlive_rule (old : Cell) (n : Int) (future : Cell) :
    isAlive (rule old n future) =
      if isAlive old then (if n ≠ 2 ∧ n ≠ 3 then false else isAlive future)
      else (if n = 3 then true else isAlive future) := by
  unfold rule
  split <;> split <;> simp [isAlive_kill, isAlive_revive]

theorem aliveAt_of_cellAt {g : Grid} {x y : Nat} {c : Cell} (h : cellAt g x y = some c) :
    aliveAt g x y = isAlive c := by
  simp [aliveAt, h]

theorem aliveNeighbours_le (H W : Nat) (g : Grid) (x y : Nat) :
    aliveNeighbours H W g x y ≤ 8 := by
  unfold aliveNeighbours
  exact List.countP_le_length _

theorem aliveNeighbours_dead {g : Grid} (hg : ∀ x y, aliveAt g x y = false)
    (H W x y : Nat) : aliveNeighbours H W g x y = 0 := by
  simp [aliveNeighbours, hg]

/-! ## The claims -/

/-- C1, survival rule. On rectangular `H × W` buffers with the next buffer a
copy of the previous one, `update` returns, and a position of the grid (so
`H, W ≥ 1`) whose previous cell is alive holds an alive cell afterwards exactly when the number
of alive cells among its eight toroidal neighbours (one per offset) in the
previous buffer is 2 or 3. -/
theorem survival_rule (H W : Nat) (prev : Grid) (x y : Nat) (c : Cell)
    (hp : Rect H W prev) (hc : cellAt prev x y = some c) (ha : isAlive c = true) :
    ∃ next c', update ⟨prev, prev⟩ = .ok ⟨prev, next⟩ ∧ cellAt next x y = some c' ∧
      (isAlive c' = true ↔
        aliveNeighbours H W prev x y = 2 ∨ aliveNeighbours H W prev x y = 3) := by
  obtain ⟨next, hrun, -, hcell⟩ := update_spec hp hp
  refine ⟨next, nextCell H W prev x y c, hrun, by rw [hcell, hc]; rfl, ?_⟩
  simp only [nextCell, hc, isAlive_rule, ha, if_true]
  have := aliveNeighbours_le H W prev x y
  by_cases h2 : aliveNeighbours H W prev x y = 2
  · simp [h2, ha]
  · by_cases h3 : aliveNeighbours H W prev x y = 3
    · simp [h3, ha]
    · have h2' : (aliveNeighbours H W prev x y : Int) ≠ 2 := by omega
      have h3' : (aliveNeighbours H W prev x y : Int) ≠ 3 := by omega
      simp [h2, h3, h2', h3']

/-- Witness of C1: the middle cell of the 3×3 blinker. -/
theorem survival_rule_witness :
    ∃ next c', update ⟨blinkerRow3, blinkerRow3⟩ = .ok ⟨blinkerRow3, next⟩ ∧
      cellAt next 1 1 = some c' ∧
      (isAlive c' = true ↔
        aliveNeighbours 3 3 blinkerRow3 1 1 = 2 ∨ aliveNeighbours 3 3 blinkerRow3 1 1 = 3) :=
  survival_rule 3 3 blinkerRow3 1 1 aliveCell (by decide) (by decide) (by decide)

/-- C2, birth rule. On rectangular `H × W` buffers with the next buffer a copy
of the previous one, `update` returns, and a position of the grid (so
`H, W ≥ 1`) whose previous cell is dead holds an alive cell afterwards exactly when 3 of its
eight toroidal neighbours (one per offset) are alive in the previous buffer;
with 2 or 4 alive neighbours it stays dead. -/
theorem birth_rule (H W : Nat) (prev : Grid) (x y : Nat) (c : Cell)
    (hp : Rect H W prev) (hc : cellAt prev x y = some c) (hd : isAlive c = false) :
    ∃ next c', update ⟨prev, prev⟩ = .ok ⟨prev, next⟩ ∧ cellAt next x y = some c' ∧
      (isAlive c' = true ↔ aliveNeighbours H W prev x y = 3) ∧
      (aliveNeighbours H W prev x y = 2 ∨ aliveNeighbours H W prev x y = 4 →
        isAlive c' = false) := by
  obtain ⟨next, hrun, -, hcell⟩ := update_spec hp hp
  have key : (isAlive (nextCell H W prev x y c) = true ↔
      aliveNeighbours H W prev x y = 3) := by
    simp only [nextCell, hc, isAlive_rule, hd]
    by_cases h3 : aliveNeighbours H W prev x y = 3
    · simp [h3]
    · have h3' : (aliveNeighbours H W prev x y : Int) ≠ 3 := by omega
      simp [h3, h3', hd]
  refine ⟨next, nextCell H W prev x y c, hrun, by rw [hcell, hc]; rfl, key, ?_⟩
  intro h
  cases hb : isAlive (nextCell H W prev x y c)
  · rfl
  · have := key.mp hb
    omega

/-- Witness of C2: the cell above the middle of the 3×3 blinker. -/
theorem birth_rule_witness :
    ∃ next c', update ⟨blinkerRow3, blinkerRow3⟩ = .ok ⟨blinkerRow3, next⟩ ∧
      cellAt next 0 1 = some c' ∧
      (isAlive c' = true ↔ aliveNeighbours 3 3 blinkerRow3 0 1 = 3) ∧
      (aliveNeighbours 3 3 blinkerRow3 0 1 = 2 ∨ aliveNeighbours 3 3 blinkerRow3 0 1 = 4 →
        isAlive c' = false) :=
  birth_rule 3 3 blinkerRow3 0 1 deadCell (by decide) (by decide) (by decide)

/-- C3, toroidal lookup. On a rectangular `H × W` buffer with `H, W ≥ 1` and for
all integers `x`, `y`: the floored remainders `x mod H` and `y mod W` lie in
`[0, H)` and `[0, W)`, `get x y b` returns the cell stored at that row and
column, `get x y b = get (x mod H) (y mod W) b`, and
`get (-1) 0 b = get (H - 1) 0 b`. -/
theorem get_toroidal (H W : Nat) (b : Grid) (x y : Int)
    (hb : Rect H W b) (hH : 1 ≤ H) (hW : 1 ≤ W) :
    (0 ≤ Int.fmod x H ∧ Int.fmod x H < H) ∧ (0 ≤ Int.fmod y W ∧ Int.fmod y W < W) ∧
    (∃ c, cellAt b (Int.fmod x H).toNat (Int.fmod y W).toNat = some c ∧
      get x y b = .ok (c, true)) ∧
    get x y b = get (Int.fmod x H) (Int.fmod y W) b ∧
    get (-1) 0 b = get ((H : Int) - 1) 0 b := by
  obtain ⟨bx0, bx1, -⟩ := fmod_bounds x hH
  obtain ⟨by0, by1, -⟩ := fmod_bounds y hW
  have hH' : (0 : Int) ≤ H := by omega
  have hW' : (0 : Int) ≤ W := by omega
  obtain ⟨row, c, hrow, hc, hget⟩ := get_spec hb hH hW x y
  refine ⟨⟨bx0, bx1⟩, ⟨by0, by1⟩, ⟨c, by simp [cellAt, hrow, hc], hget⟩, ?_, ?_⟩
  · obtain ⟨row', c', hrow', hc', hget'⟩ :=
      get_spec hb hH hW (Int.fmod x H) (Int.fmod y W)
    have ex : Int.fmod (Int.fmod x H) H = Int.fmod x H := by
      rw [Int.fmod_eq_emod _ hH', Int.fmod_eq_emod _ hH', Int.emod_emod]
    have ey : Int.fmod (Int.fmod y W) W = Int.fmod y W := by
      rw [Int.fmod_eq_emod _ hW', Int.fmod_eq_emod _ hW', Int.emod_emod]
    rw [ex] at hrow'
    rw [ey] at hc'
    rw [hrow] at hrow'
    cases hrow'
    rw [hc] at hc'
    cases hc'
    rw [hget, hget']
  · obtain ⟨r1, c1, hr1, hc1, hg1⟩ := get_spec hb hH hW (-1) 0
    obtain ⟨r2, c2, hr2, hc2, hg2⟩ := get_spec hb hH hW ((H : Int) - 1) 0
    have e : Int.fmod (-1) H = Int.fmod ((H : Int) - 1) H := by
      rw [Int.fmod_eq_emod _ hH', Int.fmod_eq_emod _ hH']
      have : ((H : Int) - 1) = -1 + H := by omega
      rw [this, Int.add_emod_self]
    rw [e, hr2] at hr1
    cases hr1
    rw [hc2] at hc1
    cases hc1
    rw [hg1, hg2]

/-- Witness of C3: a lookup below and left of the 3×3 blinker. -/
theorem get_toroidal_witness :
    (0 ≤ Int.fmod (-4) (3 : Nat) ∧ Int.fmod (-4) (3 : Nat) < (3 : Nat)) ∧
    (0 ≤ Int.fmod 7 (3 : Nat) ∧ Int.fmod 7 (3 : Nat) < (3 : Nat)) ∧
    (∃ c, cellAt blinkerRow3 (Int.fmod (-4) (3 : Nat)).toNat (Int.fmod 7 (3 : Nat)).toNat
        = some c ∧ get (-4) 7 blinkerRow3 = .ok (c, true)) ∧
    get (-4) 7 blinkerRow3 = get (Int.fmod (-4) (3 : Nat)) (Int.fmod 7 (3 : Nat)) blinkerRow3 ∧
    get (-1) 0 blinkerRow3 = get (((3 : Nat) : Int) - 1) 0 blinkerRow3 :=
  get_toroidal 3 3 blinkerRow3 (-4) 7 (by decide) (by decide) (by decide)

/-- Counterexample to C4 as stated. With the one-cell previous grid dead, a
next buffer holding an alive cell and one holding a dead cell are both left as
they are by `update`, so the resulting aliveness differs. -/
theorem update_depends_on_next :
    update ⟨[[deadCell]], [[aliveCell]]⟩ = .ok ⟨[[deadCell]], [[aliveCell]]⟩ ∧
    update ⟨[[deadCell]], [[deadCell]]⟩ = .ok ⟨[[deadCell]], [[deadCell]]⟩ ∧
    aliveAt [[aliveCell]] 0 0 ≠ aliveAt [[deadCell]] 0 0 := by
  refine ⟨rfl, rfl, by decide⟩

/-- C4, amended. For every previous grid and any two next buffers of the same
dimensions, `update` returns on both, and at every position where the two next
buffers agree in aliveness before the call they agree in aliveness after it:
the resulting aliveness of a cell is a function of the previous grid and of
the aliveness that cell of the next buffer held before the call. In particular
two next buffers that agree in aliveness everywhere (such as two copies of the
previous grid) end with the same aliveness in every cell. -/
theorem update_deterministic (H W : Nat) (prev next1 next2 : Grid)
    (hp : Rect H W prev) (h1 : Rect H W next1) (h2 : Rect H W next2) :
    ∃ r1 r2, update ⟨prev, next1⟩ = .ok ⟨prev, r1⟩ ∧
      update ⟨prev, next2⟩ = .ok ⟨prev, r2⟩ ∧
      (∀ x y, aliveAt next1 x y = aliveAt next2 x y → aliveAt r1 x y = aliveAt r2 x y) ∧
      ((∀ x y, aliveAt next1 x y = aliveAt next2 x y) →
        ∀ x y, aliveAt r1 x y = aliveAt r2 x y) := by
  obtain ⟨r1, hrun1, hr1, hcell1⟩ := update_spec hp h1
  obtain ⟨r2, hrun2, hr2, hcell2⟩ := update_spec hp h2
  have key : ∀ x y, aliveAt next1 x y = aliveAt next2 x y →
      aliveAt r1 x y = aliveAt r2 x y := by
    intro x y hs
    by_cases hx : x < H
    · by_cases hy : y < W
      · obtain ⟨-, c1, -, -, -, hc1⟩ := rect_cell h1 hx hy
        obtain ⟨-, c2, -, -, -, hc2⟩ := rect_cell h2 hx hy
        obtain ⟨-, old, -, -, -, hold⟩ := rect_cell hp hx hy
        rw [aliveAt_of_cellAt hc1, aliveAt_of_cellAt hc2] at hs
        have e1 : cellAt r1 x y = some (nextCell H W prev x y c1) := by
          rw [hcell1, hc1]; rfl
        have e2 : cellAt r2 x y = some (nextCell H W prev x y c2) := by
          rw [hcell2, hc2]; rfl
        rw [aliveAt_of_cellAt e1, aliveAt_of_cellAt e2]
        simp only [nextCell, hold, isAlive_rule, hs]
      · simp [aliveAt, cellAt_none_of_col hr1 x (by omega : W ≤ y),
          cellAt_none_of_col hr2 x (by omega : W ≤ y)]
    · simp [aliveAt, cellAt_none_of_row hr1 (by omega : H ≤ x) y,
        cellAt_none_of_row hr2 (by omega : H ≤ x) y]
  exact ⟨r1, r2, hrun1, hrun2, key, fun hall x y => key x y (hall x y)⟩

/-- Witness of C4, amended: the 3×3 blinker as previous grid, with the blinker
and the middle-column grid as next buffers; they agree in aliveness at five
positions and differ at four. -/
theorem update_deterministic_witness :
    ∃ r1 r2, update ⟨blinkerRow3, blinkerRow3⟩ = .ok ⟨blinkerRow3, r1⟩ ∧
      update ⟨blinkerRow3, blinkerCol3⟩ = .ok ⟨blinkerRow3, r2⟩ ∧
      (∀ x y, aliveAt blinkerRow3 x y = aliveAt blinkerCol3 x y →
        aliveAt r1 x y = aliveAt r2 x y) ∧
      ((∀ x y, aliveAt blinkerRow3 x y = aliveAt blinkerCol3 x y) →
        ∀ x y, aliveAt r1 x y = aliveAt r2 x y) :=
  update_deterministic 3 3 blinkerRow3 blinkerRow3 blinkerCol3
    (by decide) (by decide) (by decide)

/-- C5, stability. For every size `H × W`, if every cell of the previous grid is
dead and the next buffer is a copy of it, `update` returns and every cell of
the next grid is dead. -/
theorem all_dead_stays_dead (H W : Nat) (prev : Grid) (hp : Rect H W prev)
    (hdead : ∀ x y c, cellAt prev x y = some c → isAlive c = false) :
    ∃ next, update ⟨prev, prev⟩ = .ok ⟨prev, next⟩ ∧ Rect H W next ∧
      ∀ x y c, cellAt next x y = some c → isAlive c = false := by
  obtain ⟨next, hrun, hr, hcell⟩ := update_spec hp hp
  have hall : ∀ x y, aliveAt prev x y = false := by
    intro x y
    unfold aliveAt
    split
    · rename_i c hc
      exact hdead x y c hc
    · rfl
  refine ⟨next, hrun, hr, ?_⟩
  intro x y c hc
  rw [hcell] at hc
  cases hold : cellAt prev x y with
  | none => rw [hold] at hc; cases hc
  | some old =>
    rw [hold] at hc
    simp only [Option.map_some', Option.some.injEq] at hc
    rw [← hc]
    simp [nextCell, hold, isAlive_rule, hdead x y old hold, aliveNeighbours_dead hall]

/-- Witness of C5: the all-dead 3×3 grid. -/
theorem all_dead_stays_dead_witness :
    ∃ next, update ⟨empty3, empty3⟩ = .ok ⟨empty3, next⟩ ∧ Rect 3 3 next ∧
      ∀ x y c, cellAt next x y = some c → isAlive c = false :=
  all_dead_stays_dead 3 3 empty3 (by decide)
    (by
      intro x y c
      rcases x with _ | _ | _ | x <;> rcases y with _ | _ | _ | y <;>
        simp [cellAt, empty3] <;> rintro rfl <;> rfl)

/-- Counterexample to C6 as stated. On the 3×3 torus one tick from the blinker
does not give the middle-column grid, two ticks do not give the blinker back,
and one tick from the middle-column grid does not give the blinker either. -/
theorem blinker3_not_period_two :
    boardsOf (tick (⟨blinkerRow3, blinkerRow3⟩, [])) ≠ some ⟨blinkerCol3, blinkerCol3⟩ ∧
    boardsOf (tick (⟨blinkerRow3, blinkerRow3⟩, []) >>= tick)
      ≠ some ⟨blinkerRow3, blinkerRow3⟩ ∧
    boardsOf (tick (⟨blinkerCol3, blinkerCol3⟩, [])) ≠ some ⟨blinkerRow3, blinkerRow3⟩ := by
  decide

/-- C6, amended. On the 3×3 grid seeded with the blinker (next buffer a copy of
previous), one tick (`update`, then the copy-back of `draw`) yields the grid in
which all nine cells are alive, and a second tick yields the grid in which all
nine cells are dead. -/
theorem blinker3_fills_then_dies :
    boardsOf (tick (⟨blinkerRow3, blinkerRow3⟩, [])) = some ⟨full3, full3⟩ ∧
    boardsOf (tick (⟨blinkerRow3, blinkerRow3⟩, []) >>= tick) = some ⟨empty3, empty3⟩ := by
  decide

/-- C7, purity of the step. On two rectangular buffers of equal dimensions
`update` returns, and the previous buffer it returns is the one it was given,
cell for cell; the next buffer keeps its dimensions. -/
theorem update_keeps_previous (H W : Nat) (prev next : Grid)
    (hp : Rect H W prev) (hn : Rect H W next) :
    ∃ s', update ⟨prev, next⟩ = .ok s' ∧ s'.last = prev ∧ Rect H W s'.current ∧
      ∀ x y, cellAt s'.last x y = cellAt prev x y := by
  obtain ⟨next', hrun, hr, -⟩ := update_spec hp hn
  exact ⟨⟨prev, next'⟩, hrun, rfl, hr, fun _ _ => rfl⟩

/-- Witness of C7: the 3×3 blinker updated into a buffer of other glyphs. -/
theorem update_keeps_previous_witness :
    ∃ s', update ⟨blinkerRow3, blinkerRow3Hash⟩ = .ok s' ∧ s'.last = blinkerRow3 ∧
      Rect 3 3 s'.current ∧ ∀ x y, cellAt s'.last x y = cellAt blinkerRow3 x y :=
  update_keeps_previous 3 3 blinkerRow3 blinkerRow3Hash (by decide) (by decide)

/-- C8, only aliveness is mutated. On two rectangular buffers of equal
dimensions `update` returns, and the cell it leaves at a position of the next
buffer has the glyph that position held before; the cell is either unchanged
or carries the alive pair (white on black) or the dead pair (black on white). -/
theorem update_keeps_glyph (H W : Nat) (prev next : Grid) (x y : Nat) (c : Cell)
    (hp : Rect H W prev) (hn : Rect H W next) (hc : cellAt next x y = some c) :
    ∃ next' c', update ⟨prev, next⟩ = .ok ⟨prev, next'⟩ ∧ cellAt next' x y = some c' ∧
      c'.Ch = c.Ch ∧
      (c' = c ∨ (c'.Fg = ColorWhite ∧ c'.Bg = ColorBlack) ∨
        (c'.Fg = ColorBlack ∧ c'.Bg = ColorWhite)) := by
  obtain ⟨next', hrun, -, hcell⟩ := update_spec hp hn
  refine ⟨next', nextCell H W prev x y c, hrun, by rw [hcell, hc]; rfl, ?_, ?_⟩
  · unfold nextCell
    split
    · unfold rule
      split <;> split <;> simp [kill, revive]
    · rfl
  · unfold nextCell
    split
    · unfold rule
      split <;> split <;> simp [kill, revive]
    · exact Or.inl rfl

/-- Witness of C8: the cell above the middle of the 3×3 blinker, born into a
buffer drawn with the glyph `#`. -/
theorem update_keeps_glyph_witness :
    ∃ next' c', update ⟨blinkerRow3, blinkerRow3Hash⟩ = .ok ⟨blinkerRow3, next'⟩ ∧
      cellAt next' 0 1 = some c' ∧ c'.Ch = (⟨35, ColorBlack, ColorWhite⟩ : Cell).Ch ∧
      (c' = ⟨35, ColorBlack, ColorWhite⟩ ∨ (c'.Fg = ColorWhite ∧ c'.Bg = ColorBlack) ∨
        (c'.Fg = ColorBlack ∧ c'.Bg = ColorWhite)) :=
  update_keeps_glyph 3 3 blinkerRow3 blinkerRow3Hash 0 1 ⟨35, ColorBlack, ColorWhite⟩
    (by decide) (by decide) (by decide)

/-- C9, `get` never fails and never reports absence. On a rectangular buffer
with at least one row and one column and for all integers `x`, `y`, `get`
returns (no index panic, no division by zero) with the flag `true`, so the
accumulator of `update` counts the cell exactly when it is alive. -/
theorem get_total (H W : Nat) (b : Grid) (x y : Int)
    (hb : Rect H W b) (hH : 1 ≤ H) (hW : 1 ≤ W) :
    ∃ c, get x y b = .ok (c, true) ∧
      ∀ n, acc n (c, true) = if isAlive c then n + 1 else n := by
  obtain ⟨-, c, -, -, hget⟩ := get_spec hb hH hW x y
  refine ⟨c, hget, ?_⟩
  intro n
  cases h : isAlive c <;> simp [acc, h]

/-- Witness of C9: a lookup far outside the 3×3 blinker. -/
theorem get_total_witness :
    ∃ c, get (-100) 41 blinkerRow3 = .ok (c, true) ∧
      ∀ n, acc n (c, true) = if isAlive c then n + 1 else n :=
  get_total 3 3 blinkerRow3 (-100) 41 (by decide) (by decide) (by decide)

/-- C10, the step cannot fail. On two rectangular buffers of equal dimensions
`H × W`, `update` returns; this includes `H = 0` and `W = 0`, where every call
of `get` on the previous buffer would panic with a division by zero. -/
theorem update_total (H W : Nat) (prev next : Grid)
    (hp : Rect H W prev) (hn : Rect H W next) :
    (∃ s', update ⟨prev, next⟩ = .ok s') ∧
      (H = 0 ∨ W = 0 → ∀ x y, get x y prev = .error .divideByZero) := by
  obtain ⟨next', hrun, -, -⟩ := update_spec hp hn
  refine ⟨⟨_, hrun⟩, ?_⟩
  intro h x y
  by_cases hH : H = 0
  · have : prev.length = 0 := by rw [hp.1]; exact hH
    simp [get, rem, this, bind, Except.bind]
  · have hW : W = 0 := by omega
    obtain ⟨row0, hrow0, hlen0⟩ := rect_row hp (by omega : 0 < H)
    have hne : (prev.length : Int) ≠ 0 := by rw [hp.1]; omega
    have i0 : index prev 0 = .ok row0 := index_ok (i := 0) hrow0
    simp [get, rem, hne, i0, hlen0, hW, bind, Except.bind]

/-- Witness of C10: two buffers of two empty rows. -/
theorem update_total_witness :
    (∃ s', update ⟨[[], []], [[], []]⟩ = .ok s') ∧
      (2 = 0 ∨ 0 = 0 → ∀ x y, get x y [[], []] = .error .divideByZero) :=
  update_total 2 0 [[], []] [[], []] (by decide) (by decide)

/-! ## `draw` -/

/-- Two rectangular buffers of the same dimensions that hold the same cell at
every position are equal. -/
theorem grid_ext {H W : Nat} {a b : Grid} (ha : Rect H W a) (hb : Rect H W b)
    (h : ∀ x y, cellAt a x y = cellAt b x y) : a = b := by
  apply List.ext_getElem?
  intro x
  by_cases hx : x < H
  · obtain ⟨ra, hra, hla⟩ := rect_row ha hx
    obtain ⟨rb, hrb, hlb⟩ := rect_row hb hx
    rw [hra, hrb]
    congr 1
    apply List.ext_getElem?
    intro y
    have := h x y
    simpa [cellAt, hra, hrb] using this
  · rw [List.getElem?_eq_none (by rw [ha.1]; omega),
      List.getElem?_eq_none (by rw [hb.1]; omega)]

theorem drawCell_spec {H W : Nat} {last cur : Grid} (hl : Rect H W last)
    (hc : Rect H W cur) {x y : Nat} (hx : x < H) (hy : y < W) (scr : List SetCell) :
    ∃ c row, cellAt cur x y = some c ∧ last[x]? = some row ∧ row.length = W ∧
      drawCell x y (⟨last, cur⟩, scr) =
        .ok (⟨last.set x (row.set y c), cur⟩, scr ++ [⟨x, y, c.Ch, c.Fg, c.Bg⟩]) := by
  obtain ⟨rowC, c, hrowC, -, hcC, hcell⟩ := rect_cell hc hx hy
  obtain ⟨row, hrow, hlen⟩ := rect_row hl hx
  refine ⟨c, row, hcell, hrow, hlen, ?_⟩
  have hy' : y < row.length := by omega
  have hx' : x < last.length := by rw [hl.1]; exact hx
  simp only [drawCell, bind, Except.bind, pure, Except.pure, index_ok hrowC, index_ok hcC,
    index_ok hrow, assign_ok hy', assign_ok hx']

theorem dinv_step {H W : Nat} {last cur : Grid} (hc : Rect H W cur) {x j : Nat}
    (hx : x < H) (hj : j < W) {s : Boards × List SetCell} (hs : DInv H W last cur x j s) :
    ∃ s', drawCell x j s = .ok s' ∧ DInv H W last cur x (j + 1) s' := by
  obtain ⟨⟨sl, sc⟩, scr⟩ := s
  obtain ⟨h1, h2, h3⟩ := hs
  simp only at h1 h2 h3
  subst h1
  obtain ⟨c, row, hcell, hrow, hlen, hrun⟩ := drawCell_spec h2 hc hx hj scr
  refine ⟨_, hrun, rfl, rect_set h2 x (by rw [List.length_set]; exact hlen), ?_⟩
  intro x' y'
  simp only
  rw [cellAt_set hrow (by omega)]
  by_cases hxy : x' = x ∧ y' = j
  · obtain ⟨rfl, rfl⟩ := hxy
    rw [if_pos ⟨rfl, rfl⟩, if_pos (by omega), hcell]
  · rw [if_neg hxy, h3 x' y']
    by_cases hd : x' < x ∨ (x' = x ∧ y' < j)
    · rw [if_pos hd, if_pos (by omega)]
    · rw [if_neg hd, if_neg (by omega)]

theorem dinv_next_row {H W : Nat} {last cur : Grid} (hl : Rect H W last)
    (hc : Rect H W cur) {x : Nat} {s : Boards × List SetCell}
    (hs : DInv H W last cur x W s) : DInv H W last cur (x + 1) 0 s := by
  obtain ⟨h1, h2, h3⟩ := hs
  refine ⟨h1, h2, ?_⟩
  intro x' y'
  rw [h3 x' y']
  by_cases hd : x' < x ∨ (x' = x ∧ y' < W)
  · rw [if_pos hd, if_pos (by omega)]
  · rw [if_neg hd]
    by_cases hx : x' = x
    · have hy : W ≤ y' := by omega
      rw [cellAt_none_of_col hc x' hy, cellAt_none_of_col hl x' hy]
      simp
    · rw [if_neg (by omega)]

/-- On rectangular buffers of equal size (empty ones included) `draw` does not
panic, leaves `current` alone and makes `last` equal to it. -/
theorem draw_spec {H W : Nat} {last cur : Grid} (hl : Rect H W last)
    (hc : Rect H W cur) (scr : List SetCell) :
    ∃ scr', draw (⟨last, cur⟩, scr) = .ok (⟨cur, cur⟩, scr') := by
  have hloop := forRange_inv (fun x s => DInv H W last cur x 0 s) H
    (fun x s => do
      let row ← index s.1.last x
      forRange row.length (fun y s => drawCell x y s) s) (⟨last, cur⟩, scr)
    ⟨rfl, hl, fun x' y' => by simp⟩
    (by
      intro x s hx hs
      obtain ⟨rowL, hrowL, hlenL⟩ := rect_row hs.2.1 hx
      have hin := forRange_inv (fun j s => DInv H W last cur x j s) W
        (fun y s => drawCell x y s) s hs (fun j t hj ht => dinv_step hc hx hj ht)
      obtain ⟨t, ht, hinv⟩ := hin
      refine ⟨t, ?_, dinv_next_row hl hc hinv⟩
      simp only [index_ok hrowL, bind, Except.bind, hlenL]
      exact ht)
  obtain ⟨⟨⟨tl, tc⟩, tscr⟩, ht, h1, h2, h3⟩ := hloop
  simp only at h1 h2 h3
  subst h1
  have hEq : tl = tc := by
    apply grid_ext h2 hc
    intro x y
    rw [h3 x y]
    by_cases hx : x < H
    · rw [if_pos (Or.inl hx)]
    · rw [if_neg (by omega), cellAt_none_of_row hc (by omega) y,
        cellAt_none_of_row hl (by omega) y]
  subst hEq
  refine ⟨tscr, ?_⟩
  simp only [draw]
  rw [hl.1]
  exact ht

/-- C11, presenting makes next the new previous. On rectangular buffers of equal
dimensions `draw` returns; afterwards the previous buffer equals the next
buffer cell for cell (glyph and both colours) and the next buffer is the one
that was passed in. -/
theorem draw_copies_next (H W : Nat) (prev next : Grid) (scr : List SetCell)
    (hp : Rect H W prev) (hn : Rect H W next) :
    ∃ s', draw (⟨prev, next⟩, scr) = .ok s' ∧ s'.1.last = next ∧ s'.1.current = next ∧
      ∀ x y, cellAt s'.1.last x y = cellAt s'.1.current x y := by
  obtain ⟨scr', hrun⟩ := draw_spec hp hn scr
  exact ⟨_, hrun, rfl, rfl, fun _ _ => rfl⟩

/-- Witness of C11: the 3×3 blinker presented over the all-dead grid. -/
theorem draw_copies_next_witness :
    ∃ s', draw (⟨empty3, blinkerRow3⟩, []) = .ok s' ∧ s'.1.last = blinkerRow3 ∧
      s'.1.current = blinkerRow3 ∧
      ∀ x y, cellAt s'.1.last x y = cellAt s'.1.current x y :=
  draw_copies_next 3 3 empty3 blinkerRow3 [] (by decide) (by decide)

/-! ## Seeding -/

theorem rect_zeroGrid (h w : Nat) : Rect h w (zeroGrid h w) := by
  refine ⟨by simp [zeroGrid], ?_⟩
  intro row hrow
  rw [zeroGrid, List.mem_replicate] at hrow
  rw [hrow.2, List.length_replicate]

theorem cellAt_zeroGrid {h w x y : Nat} (hx : x < h) (hy : y < w) :
    cellAt (zeroGrid h w) x y = some zeroCell := by
  simp [cellAt, zeroGrid, List.getElem?_replicate, hx, hy]

theorem seedStep_spec {h w : Nat} (t : Int) (draws : Nat → Int) {cur : Grid}
    (hc : Rect h w cur) {i j : Nat} (hi : i < h) (hj : j < w) (k : Nat) :
    ∃ row, cur[i]? = some row ∧ row.length = w ∧
      seedStep t draws i j (⟨zeroGrid h w, cur⟩, k) =
        .ok (⟨zeroGrid h w, cur.set i (row.set j (seedCell t (draws k) zeroCell))⟩, k + 1) := by
  obtain ⟨rowZ, z, hrowZ, -, hz, hcellZ⟩ := rect_cell (rect_zeroGrid h w) hi hj
  obtain ⟨row, hrow, hlen⟩ := rect_row hc hi
  have hzero : z = zeroCell := by
    have := cellAt_zeroGrid hi hj
    rw [hcellZ] at this
    exact Option.some.inj this
  subst hzero
  refine ⟨row, hrow, hlen, ?_⟩
  have hj' : j < row.length := by omega
  have hi' : i < cur.length := by rw [hc.1]; exact hi
  simp only [seedStep, bind, Except.bind, pure, Except.pure, index_ok hrowZ, index_ok hz,
    index_ok hrow, assign_ok hj', assign_ok hi']

theorem sinv_step {h w : Nat} (t : Int) (draws : Nat → Int) {i j : Nat}
    (hi : i < h) (hj : j < w) {s : Boards × Nat} (hs : SInv h w t draws i j s) :
    ∃ s', seedStep t draws i j s = .ok s' ∧ SInv h w t draws i (j + 1) s' := by
  obtain ⟨⟨sl, sc⟩, k⟩ := s
  obtain ⟨h1, h2, h3, h4⟩ := hs
  simp only at h1 h2 h3 h4
  subst h1
  subst h2
  obtain ⟨row, hrow, hlen, hrun⟩ := seedStep_spec t draws h3 hi hj (i * w + j)
  refine ⟨_, hrun, rfl, rfl, rect_set h3 i (by rw [List.length_set]; exact hlen), ?_⟩
  intro x' y'
  simp only
  rw [cellAt_set hrow (by omega)]
  by_cases hxy : x' = i ∧ y' = j
  · obtain ⟨rfl, rfl⟩ := hxy
    rw [if_pos ⟨rfl, rfl⟩, if_pos (by omega), cellAt_zeroGrid hi hj]
    rfl
  · rw [if_neg hxy, h4 x' y']
    by_cases hd : x' < i ∨ (x' = i ∧ y' < j)
    · rw [if_pos hd, if_pos (by omega)]
    · rw [if_neg hd, if_neg (by omega)]

theorem sinv_next_row {h w : Nat} (t : Int) (draws : Nat → Int) {i : Nat}
    {s : Boards × Nat} (hs : SInv h w t draws i w s) : SInv h w t draws (i + 1) 0 s := by
  obtain ⟨h1, h2, h3, h4⟩ := hs
  refine ⟨h1, by rw [h2]; ring, h3, ?_⟩
  intro x' y'
  rw [h4 x' y']
  by_cases hd : x' < i ∨ (x' = i ∧ y' < w)
  · rw [if_pos hd, if_pos (by omega)]
  · rw [if_neg hd]
    by_cases hx : x' = i
    · have hy : w ≤ y' := by omega
      rw [cellAt_none_of_col (rect_zeroGrid h w) x' hy]
      simp
    · rw [if_neg (by omega)]

/-- The seeding loop does not panic, leaves `lastBoard` all zero, takes `h * w`
draws and puts at row `x`, column `y` the cell seeded from draw `x * w + y`. -/
theorem seed_spec (h w : Nat) (t : Int) (draws : Nat → Int) :
    ∃ S, seed h w t draws = .ok (⟨zeroGrid h w, S⟩, h * w) ∧ Rect h w S ∧
      ∀ x y, cellAt S x y =
        (cellAt (zeroGrid h w) x y).map (seedCell t (draws (x * w + y))) := by
  have hloop := forRange_inv (fun i s => SInv h w t draws i 0 s) h
    (fun i s => forRange w (fun j s => seedStep t draws i j s) s)
    (⟨zeroGrid h w, zeroGrid h w⟩, 0)
    ⟨rfl, by simp, rect_zeroGrid h w, fun x' y' => by simp⟩
    (by
      intro i s hi hs
      obtain ⟨u, hu, hinv⟩ := forRange_inv (fun j s => SInv h w t draws i j s) w
        (fun j s => seedStep t draws i j s) s hs (fun j u hj hu => sinv_step t draws hi hj hu)
      exact ⟨u, hu, sinv_next_row t draws hinv⟩)
  obtain ⟨⟨⟨tl, tc⟩, k⟩, ht, h1, h2, h3, h4⟩ := hloop
  simp only at h1 h2 h3 h4
  subst h1
  refine ⟨tc, ?_, h3, ?_⟩
  · rw [seed, ht, h2, Nat.add_zero]
  · intro x y
    rw [h4 x y]
    by_cases hx : x < h
    · rw [if_pos (Or.inl hx)]
    · rw [if_neg (by omega), cellAt_none_of_row (rect_zeroGrid h w) (by omega) y]
      rfl

theorem seededAlive_eq (t : Int) (r : Nat) : seededAlive t r = decide (t < (r : Int)) := by
  obtain ⟨S, hrun, -, hcell⟩ := seed_spec 1 1 t (fun _ => (r : Int))
  have hc := hcell 0 0
  rw [cellAt_zeroGrid (by omega) (by omega)] at hc
  simp only [seededAlive, hrun, aliveAt, hc, Option.map_some']
  by_cases h : t < (r : Int)
  · simp [seedCell, isAlive, h]
  · simp [seedCell, isAlive, h, ColorWhite, ColorBlack]

theorem countP_above (t : Int) (n : Nat) :
    (List.range n).countP (fun (r : Nat) => decide (t < (r : Int))) = n - (t + 1).toNat := by
  induction n with
  | zero => simp
  | succ k ih =>
    rw [List.range_succ, List.countP_append, ih]
    by_cases h : t < (k : Int)
    · simp [List.countP_cons, h]
      omega
    · simp [List.countP_cons, h]
      omega

/-- C12, evaluated on the code. With the default density 0.75, where
`int(*density*100.0)` is 75, the seeding loop gives the alive colours for 24 of
the 100 draws (those above 75), not for 75 of them; and for every threshold
`t ≥ 0` the number of draws that seed the cell alive is `99 - t` (none from
`t = 99` on), never `t`. -/
theorem seed_density_inverted :
    aliveDraws 75 = 24 ∧ ∀ t : Nat, aliveDraws (t : Int) = 99 - t ∧ aliveDraws (t : Int) ≠ t := by
  have key : ∀ t : Nat, aliveDraws (t : Int) = 99 - t := by
    intro t
    have : seededAlive (t : Int) = fun (r : Nat) => decide ((t : Int) < (r : Int)) :=
      funext (seededAlive_eq t)
    rw [aliveDraws, this, countP_above]
    omega
  refine ⟨by decide, fun t => ⟨key t, ?_⟩⟩
  rw [key t]
  omega

/-- C13, reproducibility of seeding. For every size `h × w`, threshold `t` and
sequence of draws, the seeding loop returns, takes `h * w` draws and leaves at
row `i`, column `j` the cell seeded from draw `i * w + j`; a second run whose
draws agree with the first on those `h * w` values produces the same grid. -/
theorem seed_reproducible (h w : Nat) (t : Int) (draws draws' : Nat → Int)
    (hagree : ∀ k, k < h * w → draws k = draws' k) :
    ∃ S, seed h w t draws = .ok (⟨zeroGrid h w, S⟩, h * w) ∧
      seed h w t draws' = .ok (⟨zeroGrid h w, S⟩, h * w) ∧ Rect h w S ∧
      ∀ i j, i < h → j < w →
        cellAt S i j = some (seedCell t (draws (i * w + j)) zeroCell) := by
  obtain ⟨S, hrun, hrect, hcell⟩ := seed_spec h w t draws
  obtain ⟨S', hrun', hrect', hcell'⟩ := seed_spec h w t draws'
  have hEq : S' = S := by
    apply grid_ext hrect' hrect
    intro x y
    rw [hcell, hcell']
    by_cases hx : x < h
    · by_cases hy : y < w
      · have hk : x * w + y < h * w := by
          have : (x + 1) * w ≤ h * w := Nat.mul_le_mul_right w hx
          have e : (x + 1) * w = x * w + w := by ring
          omega
        rw [hagree _ hk]
      · rw [cellAt_none_of_col (rect_zeroGrid h w) x (by omega : w ≤ y)]
        rfl
    · rw [cellAt_none_of_row (rect_zeroGrid h w) (by omega : h ≤ x) y]
      rfl
  subst hEq
  refine ⟨S', hrun, hrun', hrect, ?_⟩
  intro i j hi hj
  rw [hcell, cellAt_zeroGrid hi hj]
  rfl

/-- Witness of C13: a 2×3 display and two draw sequences that agree on the
first six draws only. -/
theorem seed_reproducible_witness :
    ∃ S, seed 2 3 75 drawsA = .ok (⟨zeroGrid 2 3, S⟩, 2 * 3) ∧
      seed 2 3 75 drawsB = .ok (⟨zeroGrid 2 3, S⟩, 2 * 3) ∧ Rect 2 3 S ∧
      ∀ i j, i < 2 → j < 3 →
        cellAt S i j = some (seedCell 75 (drawsA (i * 3 + j)) zeroCell) :=
  seed_reproducible 2 3 75 drawsA drawsB
    (by
      intro k hk
      have hk' : k < 6 := hk
      simp [drawsB, hk'])

/-! ## Ticks -/

theorem aliveAt_dead {g : Grid} (hdead : ∀ x y c, cellAt g x y = some c → isAlive c = false)
    (x y : Nat) : aliveAt g x y = false := by
  unfold aliveAt
  split
  · rename_i c hc
    exact hdead x y c hc
  · rfl

theorem nextCell_dead {g : Grid} (hdead : ∀ x y c, cellAt g x y = some c → isAlive c = false)
    (H W x y : Nat) (c : Cell) : nextCell H W g x y c = c := by
  unfold nextCell
  split
  · rename_i old hold
    simp [rule, hdead x y old hold, aliveNeighbours_dead (aliveAt_dead hdead)]
  · rfl

theorem zeroGrid_dead (h w x y : Nat) (c : Cell) (hc : cellAt (zeroGrid h w) x y = some c) :
    isAlive c = false := by
  by_cases hx : x < h
  · by_cases hy : y < w
    · rw [cellAt_zeroGrid hx hy] at hc
      cases hc
      rfl
    · rw [cellAt_none_of_col (rect_zeroGrid h w) x (by omega : w ≤ y)] at hc
      cases hc
  · rw [cellAt_none_of_row (rect_zeroGrid h w) (by omega : h ≤ x) y] at hc
    cases hc

/-- When every cell of the previous buffer is dead, `update` returns both
buffers as they were. -/
theorem update_of_dead {H W : Nat} {prev next : Grid} (hp : Rect H W prev)
    (hn : Rect H W next)
    (hdead : ∀ x y c, cellAt prev x y = some c → isAlive c = false) :
    update ⟨prev, next⟩ = .ok ⟨prev, next⟩ := by
  obtain ⟨next', hrun, hr, hcell⟩ := update_spec hp hn
  have hEq : next' = next := by
    apply grid_ext hr hn
    intro x y
    rw [hcell]
    cases cellAt next x y with
    | none => rfl
    | some c => simp [nextCell_dead hdead]
  rw [hrun, hEq]

/-- C15, the first tick does not evolve the board. When every cell of the
previous buffer is dead, `update` leaves the next buffer exactly as it was,
whatever it holds, and the tick that follows (`update`, then `draw`) ends with
both buffers equal to that next buffer. -/
theorem update_dead_previous (H W : Nat) (prev next : Grid) (scr : List SetCell)
    (hp : Rect H W prev) (hn : Rect H W next)
    (hdead : ∀ x y c, cellAt prev x y = some c → isAlive c = false) :
    update ⟨prev, next⟩ = .ok ⟨prev, next⟩ ∧
      boardsOf (tick (⟨prev, next⟩, scr)) = some ⟨next, next⟩ := by
  have hup := update_of_dead hp hn hdead
  refine ⟨hup, ?_⟩
  obtain ⟨scr', hdraw⟩ := draw_spec hp hn scr
  simp only [tick, hup, bind, Except.bind, hdraw, boardsOf]

/-- Witness of C15: the zero-valued buffer of `main` before the 3×3 blinker. -/
theorem update_dead_previous_witness :
    update ⟨zeroGrid 3 3, blinkerRow3⟩ = .ok ⟨zeroGrid 3 3, blinkerRow3⟩ ∧
      boardsOf (tick (⟨zeroGrid 3 3, blinkerRow3⟩, [])) = some ⟨blinkerRow3, blinkerRow3⟩ :=
  update_dead_previous 3 3 (zeroGrid 3 3) blinkerRow3 [] (by decide) (by decide)
    (zeroGrid_dead 3 3)

theorem cellAt_Life (H W : Nat) (g : Grid) (x y : Nat) :
    cellAt (Life H W g) x y =
      (cellAt g x y).map (fun c => lifeCell c (aliveNeighbours H W g x y)) := by
  unfold cellAt Life
  rw [List.getElem?_mapIdx]
  cases g[x]? with
  | none => rfl
  | some row =>
    simp only [Option.map_some', Option.some_bind]
    rw [List.getElem?_mapIdx]

theorem rect_Life {H W : Nat} {g : Grid} (hg : Rect H W g) : Rect H W (Life H W g) := by
  refine ⟨by rw [Life, List.length_mapIdx]; exact hg.1, ?_⟩
  intro row hrow
  obtain ⟨x, hx, hget⟩ := List.getElem_of_mem hrow
  have hx' : x < g.length := by rw [Life, List.length_mapIdx] at hx; exact hx
  have h1 : (Life H W g)[x]? = some row := by
    rw [List.getElem?_eq_getElem hx, hget]
  rw [Life, List.getElem?_mapIdx, List.getElem?_eq_getElem hx'] at h1
  simp only [Option.map_some', Option.some.injEq] at h1
  rw [← h1, List.length_mapIdx]
  exact hg.2 _ (List.getElem_mem _)

theorem canon_lifeCell (c : Cell) (n : Nat) : Canon (lifeCell c n) := by
  unfold lifeCell Canon
  split
  · exact Or.inl ⟨rfl, rfl⟩
  · exact Or.inr ⟨rfl, rfl⟩

theorem canon_Life (H W : Nat) (g : Grid) : CanonGrid (Life H W g) := by
  intro x y c hc
  rw [cellAt_Life] at hc
  cases hg : cellAt g x y with
  | none => rw [hg] at hc; cases hc
  | some d =>
    rw [hg] at hc
    simp only [Option.map_some', Option.some.injEq] at hc
    rw [← hc]
    exact canon_lifeCell _ _

/-- On a cell that carries one of the two colour pairs, what `update` writes
is the cell of the next Life generation. -/
theorem rule_eq_lifeCell {c : Cell} (hc : Canon c) (n : Nat) :
    rule c (n : Int) c = lifeCell c n := by
  obtain ⟨ch, fg, bg⟩ := c
  have h2 : ((n : Int) = 2) ↔ n = 2 := by omega
  have h3 : ((n : Int) = 3) ↔ n = 3 := by omega
  rcases hc with ⟨h1, h1'⟩ | ⟨h1, h1'⟩
  · simp only at h1 h1'
    subst h1
    subst h1'
    by_cases e2 : n = 2
    · subst e2
      simp [rule, lifeCell, lifeAlive, isAlive, kill, revive]
    · by_cases e3 : n = 3
      · subst e3
        simp [rule, lifeCell, lifeAlive, isAlive, kill, revive]
      · simp [rule, lifeCell, lifeAlive, isAlive, kill, revive, h2, h3, e2, e3]
  · simp only at h1 h1'
    subst h1
    subst h1'
    by_cases e3 : n = 3
    · subst e3
      simp [rule, lifeCell, lifeAlive, isAlive, kill, revive, ColorWhite, ColorBlack]
    · simp [rule, lifeCell, lifeAlive, isAlive, kill, revive, ColorWhite, ColorBlack, h3, e3]

/-- On a buffer whose cells carry the two colour pairs, `update` with the next
buffer a copy of the previous one computes one Life generation. -/
theorem update_eq_Life {H W : Nat} {g : Grid} (hg : Rect H W g) (hcan : CanonGrid g) :
    update ⟨g, g⟩ = .ok ⟨g, Life H W g⟩ := by
  obtain ⟨g', hrun, hr, hcell⟩ := update_spec hg hg
  have hEq : g' = Life H W g := by
    apply grid_ext hr (rect_Life hg)
    intro x y
    rw [hcell, cellAt_Life]
    cases hc : cellAt g x y with
    | none => rfl
    | some c =>
      simp only [Option.map_some', Option.some.injEq, nextCell, hc]
      exact rule_eq_lifeCell (hcan x y c hc) _
  rw [hrun, hEq]

theorem tick_eq_Life {H W : Nat} {g : Grid} (hg : Rect H W g) (hcan : CanonGrid g)
    (scr : List SetCell) :
    ∃ scr', tick (⟨g, g⟩, scr) = .ok (⟨Life H W g, Life H W g⟩, scr') := by
  obtain ⟨scr', hdraw⟩ := draw_spec hg (rect_Life hg) scr
  refine ⟨scr', ?_⟩
  simp only [tick, update_eq_Life hg hcan, bind, Except.bind, hdraw]

theorem ticks_eq_Life {H W : Nat} (n : Nat) :
    ∀ {g : Grid}, Rect H W g → CanonGrid g → ∀ scr : List SetCell,
      ∃ scr', ticks n (⟨g, g⟩, scr) =
        .ok (⟨Nat.iterate (Life H W) n g, Nat.iterate (Life H W) n g⟩, scr') := by
  induction n with
  | zero =>
    intro g _ _ scr
    exact ⟨scr, rfl⟩
  | succ k ih =>
    intro g hg hcan scr
    obtain ⟨scr1, h1⟩ := tick_eq_Life hg hcan scr
    obtain ⟨scr2, h2⟩ := ih (rect_Life hg) (canon_Life H W g) scr1
    refine ⟨scr2, ?_⟩
    simp only [ticks, h1, bind, Except.bind]
    rw [h2, Function.iterate_succ_apply]

theorem canon_seed {h w : Nat} {t : Int} {draws : Nat → Int} {S : Grid}
    (hcell : ∀ x y, cellAt S x y =
      (cellAt (zeroGrid h w) x y).map (seedCell t (draws (x * w + y)))) : CanonGrid S := by
  intro x y c hc
  rw [hcell] at hc
  cases hz : cellAt (zeroGrid h w) x y with
  | none => rw [hz] at hc; cases hc
  | some z =>
    rw [hz] at hc
    simp only [Option.map_some', Option.some.injEq] at hc
    rw [← hc]
    unfold seedCell Canon
    simp only
    split
    · exact Or.inl ⟨rfl, rfl⟩
    · exact Or.inr ⟨rfl, rfl⟩

/-- C16, tick invariant. Starting from the state `main` builds (`lastBoard` all
zero-valued cells, `board` the seeded grid `S`), after `n ≥ 1` ticks (each one
`update` then `draw`) both buffers equal the `(n - 1)`-th Life generation of
`S` on the `h × w` torus, glyphs included; in particular the two buffers are
equal after every tick. -/
theorem tick_invariant (h w : Nat) (t : Int) (draws : Nat → Int) (n : Nat) (hn : 1 ≤ n) :
    ∃ S k, seed h w t draws = .ok (⟨zeroGrid h w, S⟩, k) ∧
      boardsOf (ticks n (⟨zeroGrid h w, S⟩, [])) =
        some ⟨Nat.iterate (Life h w) (n - 1) S, Nat.iterate (Life h w) (n - 1) S⟩ := by
  obtain ⟨S, hrun, hrect, hcell⟩ := seed_spec h w t draws
  refine ⟨S, h * w, hrun, ?_⟩
  obtain ⟨m, rfl⟩ : ∃ m, n = m + 1 := ⟨n - 1, by omega⟩
  have hup := update_of_dead (rect_zeroGrid h w) hrect (zeroGrid_dead h w)
  obtain ⟨scr1, hdraw⟩ := draw_spec (rect_zeroGrid h w) hrect []
  obtain ⟨scr2, h2⟩ := ticks_eq_Life (H := h) (W := w) m hrect (canon_seed hcell) scr1
  simp only [ticks, tick, hup, bind, Except.bind, hdraw, Nat.add_sub_cancel]
  rw [h2]
  rfl

/-- Witness of C16: a 3×3 display, density 0.75, two ticks. -/
theorem tick_invariant_witness :
    ∃ S k, seed 3 3 75 drawsA = .ok (⟨zeroGrid 3 3, S⟩, k) ∧
      boardsOf (ticks 2 (⟨zeroGrid 3 3, S⟩, [])) =
        some ⟨Nat.iterate (Life 3 3) (2 - 1) S, Nat.iterate (Life 3 3) (2 - 1) S⟩ :=
  tick_invariant 3 3 75 drawsA 2 (by decide)

/-! ## Translations of the torus -/

theorem rect_shift {H W : Nat} {g : Grid} (hg : Rect H W g) (a b : Int) :
    Rect H W (shift a b g) := by
  refine ⟨by rw [shift, List.length_mapIdx]; exact hg.1, ?_⟩
  intro row hrow
  obtain ⟨x, hx, hget⟩ := List.getElem_of_mem hrow
  have hx' : x < g.length := by rw [shift, List.length_mapIdx] at hx; exact hx
  have h1 : (shift a b g)[x]? = some row := by
    rw [List.getElem?_eq_getElem hx, hget]
  rw [shift, List.getElem?_mapIdx, List.getElem?_eq_getElem hx'] at h1
  simp only [Option.map_some', Option.some.injEq] at h1
  rw [← h1, List.length_mapIdx]
  exact hg.2 _ (List.getElem_mem _)

theorem cellAt_shift {H W : Nat} {g : Grid} (hg : Rect H W g) (a b : Int) {x y : Nat}
    (hx : x < H) (hy : y < W) :
    ∃ c, get ((x : Int) - a) ((y : Int) - b) g = .ok (c, true) ∧
      cellAt g (Int.fmod ((x : Int) - a) H).toNat (Int.fmod ((y : Int) - b) W).toNat = some c ∧
      cellAt (shift a b g) x y = some c := by
  obtain ⟨row, c, hrow, hc, hget⟩ :=
    get_spec hg (by omega : 0 < H) (by omega : 0 < W) ((x : Int) - a) ((y : Int) - b)
  obtain ⟨row0, c0, hrow0, -, hc0, -⟩ := rect_cell hg hx hy
  refine ⟨c, hget, by simp [cellAt, hrow, hc], ?_⟩
  unfold cellAt shift
  rw [List.getElem?_mapIdx, hrow0]
  simp only [Option.map_some', Option.some_bind]
  rw [List.getElem?_mapIdx, hc0, hget]
  rfl

theorem wrap_shift (x a d : Int) (n : Int) :
    ((x + d) % n - a) % n = ((x - a) % n + d) % n := by
  have e1 : (x + d) % n - a = (x + d) % n + (-a) := by omega
  rw [e1, Int.emod_add_emod, Int.emod_add_emod]
  congr 1
  omega

theorem toNat_fmod_shift {n : Nat} (hn : 0 < n) (x : Nat) (a d : Int) :
    Int.fmod (((Int.fmod ((x : Int) + d) n).toNat : Int) - a) n =
      Int.fmod (((Int.fmod ((x : Int) - a) n).toNat : Int) + d) n := by
  obtain ⟨h1, -, -⟩ := fmod_bounds ((x : Int) + d) hn
  obtain ⟨h2, -, -⟩ := fmod_bounds ((x : Int) - a) hn
  rw [Int.toNat_of_nonneg h1, Int.toNat_of_nonneg h2]
  have hn' : (0 : Int) ≤ n := by omega
  simp only [Int.fmod_eq_emod _ hn']
  exact wrap_shift _ _ _ _

theorem aliveAt_shift {H W : Nat} {g : Grid} (hg : Rect H W g) (a b : Int) {x y : Nat}
    (hx : x < H) (hy : y < W) :
    aliveAt (shift a b g) x y =
      aliveAt g (Int.fmod ((x : Int) - a) H).toNat (Int.fmod ((y : Int) - b) W).toNat := by
  obtain ⟨c, -, h1, h2⟩ := cellAt_shift hg a b hx hy
  rw [aliveAt_of_cellAt h1, aliveAt_of_cellAt h2]

theorem aliveNeighbours_shift {H W : Nat} {g : Grid} (hg : Rect H W g) (a b : Int)
    {x y : Nat} (hx : x < H) (hy : y < W) :
    aliveNeighbours H W (shift a b g) x y =
      aliveNeighbours H W g (Int.fmod ((x : Int) - a) H).toNat
        (Int.fmod ((y : Int) - b) W).toNat := by
  have hH : 0 < H := by omega
  have hW : 0 < W := by omega
  unfold aliveNeighbours
  congr 1
  funext d
  obtain ⟨-, -, bx⟩ := fmod_bounds ((x : Int) + d.1) hH
  obtain ⟨-, -, bY⟩ := fmod_bounds ((y : Int) + d.2) hW
  rw [aliveAt_shift hg a b bx bY, toNat_fmod_shift hH x a d.1, toNat_fmod_shift hW y b d.2]

/-- C17, translation equivariance on the torus. On a rectangular `H × W` buffer
(`H, W ≥ 1` is not needed) and for all integers `a`, `b`: the translate `shift a b g` holds
at `(x, y)` the cell `get (x - a) (y - b)` returns on `g`, and `update` (with
the next buffer a copy of the previous one) applied to the translate gives the
translate of what `update` gives on `g`. -/
theorem update_shift (H W : Nat) (g : Grid) (a b : Int) (hg : Rect H W g) :
    (∀ x y : Nat, x < H → y < W →
      ∃ c, get ((x : Int) - a) ((y : Int) - b) g = .ok (c, true) ∧
        cellAt (shift a b g) x y = some c) ∧
    ∃ g1 g2, update ⟨g, g⟩ = .ok ⟨g, g1⟩ ∧
      update ⟨shift a b g, shift a b g⟩ = .ok ⟨shift a b g, g2⟩ ∧
      g2 = shift a b g1 := by
  refine ⟨fun x y hx hy => ?_, ?_⟩
  · obtain ⟨c, h1, -, h2⟩ := cellAt_shift hg a b hx hy
    exact ⟨c, h1, h2⟩
  obtain ⟨g1, hrun1, hr1, hcell1⟩ := update_spec hg hg
  have hs := rect_shift hg a b
  obtain ⟨g2, hrun2, hr2, hcell2⟩ := update_spec hs hs
  refine ⟨g1, g2, hrun1, hrun2, ?_⟩
  apply grid_ext hr2 (rect_shift hr1 a b)
  intro x y
  by_cases hx : x < H
  · by_cases hy : y < W
    · obtain ⟨c, -, hc, hsc⟩ := cellAt_shift hg a b hx hy
      obtain ⟨c1, -, hc1, hsc1⟩ := cellAt_shift hr1 a b hx hy
      rw [hcell2, hsc, hsc1, ← hc1, hcell1, hc]
      simp only [Option.map_some', Option.some.injEq, nextCell, hsc, hc,
        aliveNeighbours_shift hg a b hx hy]
    · rw [cellAt_none_of_col hr2 x (by omega : W ≤ y),
        cellAt_none_of_col (rect_shift hr1 a b) x (by omega : W ≤ y)]
  · rw [cellAt_none_of_row hr2 (by omega : H ≤ x) y,
      cellAt_none_of_row (rect_shift hr1 a b) (by omega : H ≤ x) y]

/-- Witness of C17: the 3×3 blinker moved by `(1, -2)`. -/
theorem update_shift_witness :
    (∀ x y : Nat, x < 3 → y < 3 → ∃ c, get ((x : Int) - 1) ((y : Int) - (-2)) blinkerRow3
        = .ok (c, true) ∧ cellAt (shift 1 (-2) blinkerRow3) x y = some c) ∧
    ∃ g1 g2, update ⟨blinkerRow3, blinkerRow3⟩ = .ok ⟨blinkerRow3, g1⟩ ∧
      update ⟨shift 1 (-2) blinkerRow3, shift 1 (-2) blinkerRow3⟩
        = .ok ⟨shift 1 (-2) blinkerRow3, g2⟩ ∧
      g2 = shift 1 (-2) g1 :=
  update_shift 3 3 blinkerRow3 1 (-2) (by decide)

/-! ## Counting per offset -/

theorem offsetCount_eq {H W : Nat} {g : Grid} (hg : Rect H W g) (hH : 0 < H) (hW : 0 < W)
    (x y : Nat) : offsetCount g x y = aliveNeighbours H W g x y := by
  unfold offsetCount aliveNeighbours
  congr 1
  funext d
  obtain ⟨c, hget, halive⟩ := get_alive hg hH hW ((x : Int) + d.1) ((y : Int) + d.2)
  rw [hget, ← halive]
  rfl

theorem aliveNeighbours_one (c : Cell) :
    aliveNeighbours 1 1 [[c]] 0 0 = if isAlive c then 8 else 0 := by
  have h0 : ∀ z : Int, (Int.fmod z (1 : Nat)).toNat = 0 := by
    intro z
    obtain ⟨-, -, h⟩ := fmod_bounds z (by omega : 0 < 1)
    omega
  have hf : (fun d : Int × Int =>
      aliveAt [[c]] (Int.fmod (((0 : Nat) : Int) + d.1) (1 : Nat)).toNat
        (Int.fmod (((0 : Nat) : Int) + d.2) (1 : Nat)).toNat) = fun _ => isAlive c := by
    funext d
    rw [h0, h0]
    rfl
  unfold aliveNeighbours
  rw [hf]
  cases isAlive c <;> simp [offsets]

/-- C18, neighbours are counted per offset. On rectangular buffers of equal
dimensions `update` returns, and the count it applies the rule with at a
position `(x, y)` is the number of offsets among the eight for which
`get (x + dx) (y + dy)` on the previous buffer is alive. On a 1×1 grid that
count is 8 for an alive cell and 0 for a dead one, and the cell is dead after
the step either way; on a 2×2 grid whose only alive cell is the diagonal
neighbour, that cell is counted four times. -/
theorem count_per_offset (H W : Nat) (prev next : Grid) (x y : Nat) (old future : Cell)
    (hp : Rect H W prev) (hn : Rect H W next)
    (hold : cellAt prev x y = some old) (hfut : cellAt next x y = some future) :
    (∃ next', update ⟨prev, next⟩ = .ok ⟨prev, next'⟩ ∧
      cellAt next' x y = some (rule old (offsetCount prev x y) future)) ∧
    (∀ c : Cell, offsetCount [[c]] 0 0 = (if isAlive c then 8 else 0) ∧
      ∃ next' c', update ⟨[[c]], [[c]]⟩ = .ok ⟨[[c]], next'⟩ ∧
        cellAt next' 0 0 = some c' ∧ isAlive c' = false) ∧
    offsetCount [[aliveCell, deadCell], [deadCell, deadCell]] 1 1 = 4 := by
  refine ⟨?_, ?_, by decide⟩
  · obtain ⟨next', hrun, -, hcell⟩ := update_spec hp hn
    have hx : x < H := by
      by_contra hx
      rw [cellAt_none_of_row hp (by omega : H ≤ x) y] at hold
      cases hold
    have hy : y < W := by
      by_contra hy
      rw [cellAt_none_of_col hp x (by omega : W ≤ y)] at hold
      cases hold
    refine ⟨next', hrun, ?_⟩
    rw [hcell, hfut, offsetCount_eq hp (by omega) (by omega)]
    simp [nextCell, hold]
  · intro c
    have hr : Rect 1 1 [[c]] := by
      refine ⟨rfl, ?_⟩
      intro row hrow
      rw [List.mem_singleton] at hrow
      rw [hrow]
      rfl
    have hcount : offsetCount [[c]] 0 0 = if isAlive c then 8 else 0 := by
      rw [offsetCount_eq hr (by omega) (by omega), aliveNeighbours_one]
    refine ⟨hcount, ?_⟩
    obtain ⟨next', hrun, -, hcell⟩ := update_spec hr hr
    have hc : cellAt [[c]] 0 0 = some c := rfl
    refine ⟨next', nextCell 1 1 [[c]] 0 0 c, hrun, by rw [hcell, hc]; rfl, ?_⟩
    simp only [nextCell, hc, isAlive_rule, aliveNeighbours_one]
    cases h : isAlive c <;> simp

/-- Witness of C18: the middle cell of the 3×3 blinker. -/
theorem count_per_offset_witness :
    (∃ next', update ⟨blinkerRow3, blinkerRow3⟩ = .ok ⟨blinkerRow3, next'⟩ ∧
      cellAt next' 1 1 = some (rule aliveCell (offsetCount blinkerRow3 1 1) aliveCell)) ∧
    (∀ c : Cell, offsetCount [[c]] 0 0 = (if isAlive c then 8 else 0) ∧
      ∃ next' c', update ⟨[[c]], [[c]]⟩ = .ok ⟨[[c]], next'⟩ ∧
        cellAt next' 0 0 = some c' ∧ isAlive c' = false) ∧
    offsetCount [[aliveCell, deadCell], [deadCell, deadCell]] 1 1 = 4 :=
  count_per_offset 3 3 blinkerRow3 blinkerRow3 1 1 aliveCell aliveCell
    (by decide) (by decide) (by decide) (by decide)

/-! ## The blinker on a board that does not wrap onto itself -/

end Gol
